import Mathlib

/-
  Verification of the PathTracer repository against its specification.

  Shallow embedding conventions:
  - C++ `double` values are modelled as exact rationals (ℚ); IEEE rounding,
    infinities and NaNs are outside the model.  Division is Lean's total
    field division.  Where the C++ code divides by a quantity that can be
    zero (the slab test's 1/direction components), theorems carry explicit
    nonzero hypotheses so that the model and the code agree on the inputs
    considered.
  - calls to std::sqrt are modelled by an explicit function parameter
    `sqrt : ℚ → ℚ`; theorems that depend on actual square-root behaviour
    constrain it by hypotheses (for example sqrt 0 = 0, or
    0 ≤ sqrt q ∧ sqrt q * sqrt q = q for 0 ≤ q), and concrete witnesses
    instantiate it with a function computing the true square root at every
    point where the modelled code evaluates it.
  - the `std::reference_wrapper<const RawObject>` back-reference stored in
    an Intersection is modelled as a numeric object identifier (obj : ℕ).
-/

namespace PT

/-- Model of class Vector (src/utils.hpp, lines 33 to 181): a triple of
coordinates.  The auxiliary barycentric fields b1, b2, b3 carried by C++
points are not needed by any claim and are omitted; barycentric triples are
stored as the x, y, z coordinates of a V3, exactly as the C++ code stores
them in a Vector. -/
@[ext]
structure V3 where
  x : ℚ
  y : ℚ
  z : ℚ
deriving DecidableEq

/-- Vector addition (src/utils.hpp, operator+, line 152). -/
instance : Add V3 := ⟨fun a b => ⟨a.x + b.x, a.y + b.y, a.z + b.z⟩⟩

/-- Vector subtraction (src/utils.hpp, operator-, line 157). -/
instance : Sub V3 := ⟨fun a b => ⟨a.x - b.x, a.y - b.y, a.z - b.z⟩⟩

/-- Vector negation (src/utils.hpp, unary operator-, line 147). -/
instance : Neg V3 := ⟨fun a => ⟨-a.x, -a.y, -a.z⟩⟩

/-- Left scalar multiplication (src/utils.hpp, line 132). -/
instance : HMul ℚ V3 V3 := ⟨fun q v => ⟨q * v.x, q * v.y, q * v.z⟩⟩

/-- Right scalar multiplication (src/utils.hpp, line 137). -/
instance : HMul V3 ℚ V3 := ⟨fun v q => ⟨v.x * q, v.y * q, v.z * q⟩⟩

/-- Scalar division (src/utils.hpp, line 142). -/
instance : HDiv V3 ℚ V3 := ⟨fun v q => ⟨v.x / q, v.y / q, v.z / q⟩⟩

/-- Componentwise product (src/utils.hpp, operator* on two Vectors,
line 162). -/
instance : HMul V3 V3 V3 := ⟨fun a b => ⟨a.x * b.x, a.y * b.y, a.z * b.z⟩⟩

@[simp]
theorem V3.add_def (a b : V3) : a + b = ⟨a.x + b.x, a.y + b.y, a.z + b.z⟩ :=
  rfl

@[simp]
theorem V3.sub_def (a b : V3) : a - b = ⟨a.x - b.x, a.y - b.y, a.z - b.z⟩ :=
  rfl

@[simp]
theorem V3.neg_def (a : V3) : -a = ⟨-a.x, -a.y, -a.z⟩ := rfl

@[simp]
theorem V3.smul_def (q : ℚ) (v : V3) : q * v = ⟨q * v.x, q * v.y, q * v.z⟩ :=
  rfl

@[simp]
theorem V3.muls_def (v : V3) (q : ℚ) : v * q = ⟨v.x * q, v.y * q, v.z * q⟩ :=
  rfl

@[simp]
theorem V3.divs_def (v : V3) (q : ℚ) : v / q = ⟨v.x / q, v.y / q, v.z / q⟩ :=
  rfl

@[simp]
theorem V3.hprod_def (a b : V3) :
    a * b = (⟨a.x * b.x, a.y * b.y, a.z * b.z⟩ : V3) := rfl

/-- Dot product (src/utils.hpp, operator|, line 167). -/
def V3.dot (a b : V3) : ℚ := a.x * b.x + a.y * b.y + a.z * b.z

/-- Cross product (src/utils.hpp, operator^, line 172). -/
def V3.cross (a b : V3) : V3 :=
  ⟨a.y * b.z - a.z * b.y, a.z * b.x - a.x * b.z, a.x * b.y - a.y * b.x⟩

/-- Squared norm (src/utils.hpp, NormSquared, line 111). -/
def V3.normSq (a : V3) : ℚ := a.x * a.x + a.y * a.y + a.z * a.z

/-- The default Vector, the origin (src/utils.hpp, line 47). -/
def V3.zero : V3 := ⟨0, 0, 0⟩

/-- Normalization (src/utils.hpp, Normalize, line 103): each component is
divided by the norm, which the C++ code computes as sqrt of NormSquared. -/
def normalizeV (sqrt : ℚ → ℚ) (v : V3) : V3 := v / sqrt v.normSq

/-- Model of class Ray (src/utils.hpp, lines 193 to 228): an origin and a
direction.  The C++ constructor normalizes the direction in place; rays are
therefore carried around with the stored (normalized) direction, and
mkRay models the constructor. -/
structure Ray where
  origin : V3
  dir : V3
deriving DecidableEq

/-- The Ray constructor (src/utils.hpp, lines 200 to 205): stores the origin
and the normalized direction. -/
def mkRay (sqrt : ℚ → ℚ) (origin direction : V3) : Ray :=
  ⟨origin, normalizeV sqrt direction⟩

/-- Ray evaluation, Ray::operator() (src/utils.hpp, lines 225 to 227):
returns origin_ + (t*0.9999)*direction_. -/
def rayAt (r : Ray) (t : ℚ) : V3 := r.origin + (t * (9999 / 10000)) * r.dir

/-- Model of class Intersection (src/utils.hpp, lines 238 to 384).
The object back-reference is an identifier. -/
structure Isect where
  ex : Bool
  t : ℚ
  out : Bool
  bary : V3
  obj : ℕ
deriving DecidableEq

/-- The four-argument Intersection constructor (src/utils.hpp,
lines 302 to 314): exists_ is t > 0 and t_ is max(t, 0). -/
def mkIsect (t : ℚ) (out : Bool) (bary : V3) (obj : ℕ) : Isect :=
  ⟨decide (0 < t), max t 0, out, bary, obj⟩

/-- The empty-Intersection constructor (src/utils.hpp, lines 267 to 273):
exists_ = false, t_ = 0, out_ = false, default barycentric coordinates. -/
def emptyIsect (obj : ℕ) : Isect := ⟨false, 0, false, V3.zero, obj⟩

/-- Intersection::IsEmpty (src/utils.hpp, line 317). -/
def Isect.isEmpty (i : Isect) : Bool := !i.ex

/-- The nearest-merge operator Intersection::operator| (src/utils.hpp,
lines 353 to 371).  Each branch rebuilds the record through the
four-argument constructor, exactly as the C++ code does. -/
def Isect.merge (a b : Isect) : Isect :=
  if a.isEmpty then mkIsect b.t b.out b.bary b.obj
  else if b.isEmpty then mkIsect a.t a.out a.bary a.obj
  else if a.t < b.t then mkIsect a.t a.out a.bary a.obj
  else mkIsect b.t b.out b.bary b.obj

/-- The comparison operator Intersection::operator< (src/utils.hpp,
lines 375 to 383): a is less than b iff a is present and b is empty or
farther. -/
def Isect.lt (a b : Isect) : Bool :=
  if a.isEmpty then false
  else if b.isEmpty then true
  else decide (a.t < b.t)

/-- Well-formedness invariant maintained by both Intersection constructors:
the presence flag agrees with positivity of t, and t is non-negative. -/
def Isect.wf (i : Isect) : Prop := i.ex = decide (0 < i.t) ∧ 0 ≤ i.t

theorem mkIsect_wf (t : ℚ) (out : Bool) (bary : V3) (obj : ℕ) :
    (mkIsect t out bary obj).wf := by
  refine ⟨?_, le_max_right t 0⟩
  simp only [mkIsect, Isect.wf, decide_eq_decide, lt_max_iff, lt_self_iff_false,
    or_false]

theorem emptyIsect_wf (obj : ℕ) : (emptyIsect obj).wf := by
  simp [Isect.wf, emptyIsect]

/-- Rebuilding a well-formed record through the four-argument constructor
reproduces it. -/
theorem mkIsect_eta (i : Isect) (h : i.wf) :
    mkIsect i.t i.out i.bary i.obj = i := by
  obtain ⟨he, ht⟩ := h
  cases i with
  | mk ex t out bary obj =>
    simp only [mkIsect, Isect.mk.injEq] at *
    exact ⟨he.symm, max_eq_left ht, trivial, trivial, trivial⟩

/-- C4, counterexample.  The claim states that evaluating a ray at t yields
origin + (t · (1 − ε)) · direction with ε ≈ 10⁻⁶; the code uses the factor
0.9999, i.e. ε = 10⁻⁴.  At origin 0, unit direction (1,0,0) and t = 1 the
code produces (0.9999, 0, 0) whereas the claimed formula with ε = 10⁻⁶
gives (0.999999, 0, 0). -/
theorem c4_ray_eval_claim_false :
    rayAt ⟨V3.zero, ⟨1, 0, 0⟩⟩ 1
      ≠ V3.zero + ((1 : ℚ) * (1 - 1 / 1000000)) * (⟨1, 0, 0⟩ : V3) := by
  simp only [rayAt, V3.zero, V3.add_def, V3.smul_def, ne_eq, V3.mk.injEq,
    not_and]
  intro h
  norm_num at h

/-- C4, amended: evaluating a ray at parameter t returns
origin + (t · (1 − ε)) · direction where ε = 10⁻⁴ (the code's factor
0.9999), not 10⁻⁶. -/
theorem c4_ray_eval (o d : V3) (t : ℚ) :
    rayAt ⟨o, d⟩ t = o + (t * (1 - 1 / 10000)) * d := by
  simp only [rayAt]
  norm_num

/-- C6, counterexample.  The claim states that when both intersections are
present with equal t, nearest-merge resolves to a (returning a's fields);
the code's else-branch returns b's fields instead.  With a present at t = 1,
front flag true, object 5 and b present at t = 1, front flag false,
object 7, the merge equals b and differs from a. -/
theorem c6_merge_tie_claim_false :
    (mkIsect 1 true ⟨1, 2, 3⟩ 5).merge (mkIsect 1 false ⟨4, 5, 6⟩ 7)
        = mkIsect 1 false ⟨4, 5, 6⟩ 7 ∧
      (mkIsect 1 true ⟨1, 2, 3⟩ 5).merge (mkIsect 1 false ⟨4, 5, 6⟩ 7)
        ≠ mkIsect 1 true ⟨1, 2, 3⟩ 5 := by
  constructor
  · simp only [Isect.merge, mkIsect, Isect.isEmpty]
    norm_num
  · simp only [Isect.merge, mkIsect, Isect.isEmpty, ne_eq, Isect.mk.injEq]
    norm_num

/-- C6, amended: for well-formed intersection records, nearest-merge returns
the present record with the smaller t; if both are empty it is empty; if
exactly one is empty it is the other; and when both are present with equal
t it resolves to b (the code returns b's fields in the tie case). -/
theorem c6_merge_characterization (a b : Isect) (ha : a.wf) (hb : b.wf) :
    (a.isEmpty = true → b.isEmpty = true → (a.merge b).isEmpty = true) ∧
    (a.isEmpty = false → b.isEmpty = true → a.merge b = a) ∧
    (a.isEmpty = true → b.isEmpty = false → a.merge b = b) ∧
    (a.isEmpty = false → b.isEmpty = false →
      a.merge b = if a.t < b.t then a else b) := by
  obtain ⟨hae, hat⟩ := ha
  obtain ⟨hbe, hbt⟩ := hb
  refine ⟨?_, ?_, ?_, ?_⟩
  · intro h1 h2
    simp only [Isect.isEmpty, Bool.not_eq_true'] at h1 h2
    have hb0 : b.t = 0 := by
      rw [h2] at hbe
      exact le_antisymm (not_lt.mp (of_decide_eq_false hbe.symm)) hbt
    simp only [Isect.merge, Isect.isEmpty, h1, Bool.not_false, if_true,
      mkIsect, hb0]
    norm_num
  · intro h1 h2
    simp only [Isect.isEmpty, Bool.not_eq_true', Bool.not_eq_false'] at h1 h2
    simp only [Isect.merge, Isect.isEmpty, h1, h2, Bool.not_true,
      Bool.not_false, if_true, if_false, Bool.false_eq_true, ite_false]
    exact mkIsect_eta a ⟨hae, hat⟩
  · intro h1 h2
    simp only [Isect.isEmpty, Bool.not_eq_true', Bool.not_eq_false'] at h1 h2
    simp only [Isect.merge, Isect.isEmpty, h1, h2, Bool.not_false, if_true]
    exact mkIsect_eta b ⟨hbe, hbt⟩
  · intro h1 h2
    simp only [Isect.isEmpty, Bool.not_eq_true', Bool.not_eq_false'] at h1 h2
    simp only [Isect.merge, Isect.isEmpty, h1, h2, Bool.not_true,
      Bool.false_eq_true, ite_false]
    by_cases hlt : a.t < b.t
    · simp only [hlt, if_true]
      exact mkIsect_eta a ⟨hae, hat⟩
    · simp only [hlt, if_false]
      exact mkIsect_eta b ⟨hbe, hbt⟩

/-- C6, witness: the amended characterization applied to two concrete
present records with distinct t. -/
theorem c6_merge_characterization_witness :
    (mkIsect 2 true V3.zero 1).merge (mkIsect 1 false V3.zero 2)
      = if (mkIsect 2 true V3.zero 1).t < (mkIsect 1 false V3.zero 2).t
        then mkIsect 2 true V3.zero 1 else mkIsect 1 false V3.zero 2 :=
  (c6_merge_characterization (mkIsect 2 true V3.zero 1)
      (mkIsect 1 false V3.zero 2) (mkIsect_wf 2 true V3.zero 1)
      (mkIsect_wf 1 false V3.zero 2)).2.2.2
    (by simp only [Isect.isEmpty, mkIsect]; norm_num)
    (by simp only [Isect.isEmpty, mkIsect]; norm_num)

/-- The Schlick reflection coefficient computed by the reflection/refraction
estimator Scene::GetTransmissionReflexionColor (src/scene.cpp, lines 137 to
141): k0 = (n_in − n_out)² / (n_in + n_out)², c = 1 + dot_prod,
coef = k0 + (1 − k0)·c·c·c·c·c, where dot_prod = ray.direction · normal
is cos_i. -/
def fresnelK0 (n_in n_out : ℚ) : ℚ :=
  (n_in - n_out) * (n_in - n_out) / ((n_in + n_out) * (n_in + n_out))

def coefReflection (n_in n_out dot_prod : ℚ) : ℚ :=
  fresnelK0 n_in n_out
    + (1 - fresnelK0 n_in n_out) * (1 + dot_prod) * (1 + dot_prod)
      * (1 + dot_prod) * (1 + dot_prod) * (1 + dot_prod)

/-- C5, counterexample.  The claim asserts P_R ∈ [0, 1] for all
cos_i ∈ [−1, 1] and η_in, η_out > 0, but at cos_i = 1, η_in = 1, η_out = 3
(all inside the claimed domain) the computed coefficient is 97/4 > 1. -/
theorem c5_fresnel_claim_false :
    ((-1 : ℚ) ≤ 1 ∧ (1 : ℚ) ≤ 1 ∧ (0 : ℚ) < 1 ∧ (0 : ℚ) < 3) ∧
      coefReflection 1 3 1 = 97 / 4 ∧ ¬ coefReflection 1 3 1 ≤ 1 := by
  refine ⟨by norm_num, ?_, ?_⟩ <;> norm_num [coefReflection, fresnelK0]

/-- C5, amended: the Schlick coefficient lies in [0, 1] for all
cos_i ∈ [−1, 0] (the sign convention actually holding at the call site,
where the normal faces the ray origin) and all η_in, η_out > 0; for
cos_i > 0 the coefficient can exceed 1. -/
theorem c5_fresnel_in_unit_interval (n_in n_out dot_prod : ℚ)
    (h1 : -1 ≤ dot_prod) (h2 : dot_prod ≤ 0)
    (hin : 0 < n_in) (hout : 0 < n_out) :
    0 ≤ coefReflection n_in n_out dot_prod ∧
      coefReflection n_in n_out dot_prod ≤ 1 := by
  unfold coefReflection
  have hd : 0 < (n_in + n_out) * (n_in + n_out) := by positivity
  have hk0 : 0 ≤ fresnelK0 n_in n_out :=
    div_nonneg (mul_self_nonneg _) hd.le
  have hk1 : fresnelK0 n_in n_out ≤ 1 := by
    rw [fresnelK0, div_le_one hd]
    nlinarith
  set k0 := fresnelK0 n_in n_out
  set c := 1 + dot_prod with hcdef
  have hc0 : 0 ≤ c := by rw [hcdef]; linarith
  have hc1 : c ≤ 1 := by rw [hcdef]; linarith
  have m2a : 0 ≤ c * c := mul_nonneg hc0 hc0
  have m2b : c * c ≤ 1 := mul_le_one₀ hc1 hc0 hc1
  have m3a : 0 ≤ c * c * c := mul_nonneg m2a hc0
  have m3b : c * c * c ≤ 1 := mul_le_one₀ m2b hc0 hc1
  have m4a : 0 ≤ c * c * c * c := mul_nonneg m3a hc0
  have m4b : c * c * c * c ≤ 1 := mul_le_one₀ m3b hc0 hc1
  have m5a : 0 ≤ c * c * c * c * c := mul_nonneg m4a hc0
  have m5b : c * c * c * c * c ≤ 1 := mul_le_one₀ m4b hc0 hc1
  constructor
  · nlinarith
  · nlinarith

/-- C5, witness: the amended bound at cos_i = −1/2, η_in = 1, η_out = 3/2. -/
theorem c5_fresnel_in_unit_interval_witness :
    0 ≤ coefReflection 1 (3 / 2) (-1 / 2) ∧
      coefReflection 1 (3 / 2) (-1 / 2) ≤ 1 :=
  c5_fresnel_in_unit_interval 1 (3 / 2) (-1 / 2) (by norm_num) (by norm_num)
    (by norm_num) (by norm_num)

/-- The denominator 1 − opacity·(1 − fraction_diffuse_brdf) of the
diffuse-sampling ratio computed in Scene::GetColor (src/scene.cpp,
lines 231 to 233). -/
def fracDiffDenom (opacity fraction_diffuse_brdf : ℚ) : ℚ :=
  1 - opacity * (1 - fraction_diffuse_brdf)

/-- The diffuse-sampling ratio fraction_diffusion of Scene::GetColor
(src/scene.cpp, lines 231 to 233), computed only under the branch
condition opacity ≠ 1 or fraction_diffuse_brdf ≠ 0 (line 230). -/
def fractionDiffusion (opacity fraction_diffuse_brdf : ℚ) : ℚ :=
  opacity * fraction_diffuse_brdf / fracDiffDenom opacity fraction_diffuse_brdf

/-- C9: whenever Scene::GetColor computes fraction_diffusion — that is,
under the branch condition opacity ≠ 1 or fraction_diffuse_brdf ≠ 0 — and
opacity, fraction_diffuse_brdf lie in [0, 1], the denominator
1 − opacity·(1 − fraction_diffuse_brdf) is nonzero, so the
division-by-zero case is unreachable. -/
theorem c9_fraction_diffusion_denominator_nonzero
    (opacity fraction_diffuse_brdf : ℚ)
    (h0a : 0 ≤ opacity) (h1a : opacity ≤ 1)
    (h0b : 0 ≤ fraction_diffuse_brdf) (h1b : fraction_diffuse_brdf ≤ 1)
    (hbranch : opacity ≠ 1 ∨ fraction_diffuse_brdf ≠ 0) :
    fracDiffDenom opacity fraction_diffuse_brdf ≠ 0 := by
  have hlt : opacity * (1 - fraction_diffuse_brdf) < 1 := by
    rcases hbranch with h | h
    · have : opacity < 1 := lt_of_le_of_ne h1a h
      nlinarith
    · have : 0 < fraction_diffuse_brdf := lt_of_le_of_ne' h0b h
      nlinarith
  unfold fracDiffDenom
  intro hcontra
  nlinarith

/-- C9, witness: the guard at opacity = 1/2, fraction_diffuse_brdf = 0. -/
theorem c9_fraction_diffusion_denominator_nonzero_witness :
    fracDiffDenom (1 / 2) 0 ≠ 0 :=
  c9_fraction_diffusion_denominator_nonzero (1 / 2) 0 (by norm_num)
    (by norm_num) (by norm_num) (by norm_num) (Or.inl (by norm_num))

/-- Model of class Sphere (src/object.hpp, lines 86 to 109): a radius and a
center.  The material plays no role in any claim and is omitted. -/
structure Sphere where
  radius : ℚ
  center : V3
deriving DecidableEq

/-- Sphere::Intersect (src/object.cpp, lines 9 to 27): solves the quadratic,
builds the two candidate intersections (t₁ = (−2b + √Δ)/2 with out = false,
t₂ = (−2b − √Δ)/2 with out = true) and merges them.  obj is the identifier
standing for the back-reference *this. -/
def sphereIntersect (sqrt : ℚ → ℚ) (s : Sphere) (obj : ℕ) (r : Ray) : Isect :=
  let dot_prod := r.dir.dot (r.origin - s.center)
  if 4 * (dot_prod * dot_prod - (s.center - r.origin).normSq
      + s.radius * s.radius) < 0 then
    emptyIsect obj
  else
    (mkIsect ((-2 * dot_prod
        + sqrt (4 * (dot_prod * dot_prod - (s.center - r.origin).normSq
          + s.radius * s.radius))) / 2) false V3.zero obj).merge
      (mkIsect ((-2 * dot_prod
        - sqrt (4 * (dot_prod * dot_prod - (s.center - r.origin).normSq
          + s.radius * s.radius))) / 2) true V3.zero obj)

/-- Model of class AABB (src/object.hpp, lines 298 to 368): two extremal
points. -/
structure Box where
  p1 : V3
  p2 : V3
deriving DecidableEq

/-- AABB::XMinMax (src/object.hpp, lines 322 to 328). -/
def Box.xMinMax (b : Box) : ℚ × ℚ :=
  if b.p1.x < b.p2.x then (b.p1.x, b.p2.x) else (b.p2.x, b.p1.x)

/-- AABB::YMinMax (src/object.hpp, lines 331 to 337). -/
def Box.yMinMax (b : Box) : ℚ × ℚ :=
  if b.p1.y < b.p2.y then (b.p1.y, b.p2.y) else (b.p2.y, b.p1.y)

/-- AABB::ZMinMax (src/object.hpp, lines 340 to 346). -/
def Box.zMinMax (b : Box) : ℚ × ℚ :=
  if b.p1.z < b.p2.z then (b.p1.z, b.p2.z) else (b.p2.z, b.p1.z)

/-- AABB::Centroid (src/object.hpp, lines 349 to 355). -/
def Box.centroid (b : Box) : V3 :=
  ⟨(b.p1.x + b.p2.x) / 2, (b.p1.y + b.p2.y) / 2, (b.p1.z + b.p2.z) / 2⟩

/-- AABB::Intersect, the slab test (src/object.cpp, lines 184 to 204).
The C++ code computes 1/direction componentwise; theorems about this
function assume the direction components are nonzero, where the double
code would produce infinities that the rational model cannot represent. -/
def boxIntersect (b : Box) (obj : ℕ) (r : Ray) : Isect :=
  let t_x1 := (b.p1.x - r.origin.x) * (1 / r.dir.x)
  let t_x2 := (b.p2.x - r.origin.x) * (1 / r.dir.x)
  let t_y1 := (b.p1.y - r.origin.y) * (1 / r.dir.y)
  let t_y2 := (b.p2.y - r.origin.y) * (1 / r.dir.y)
  let t_z1 := (b.p1.z - r.origin.z) * (1 / r.dir.z)
  let t_z2 := (b.p2.z - r.origin.z) * (1 / r.dir.z)
  let t_min := max (max (min t_x1 t_x2) (min t_y1 t_y2)) (min t_z1 t_z2)
  let t_max := min (min (max t_x1 t_x2) (max t_y1 t_y2)) (max t_z1 t_z2)
  if t_min > t_max then emptyIsect obj
  else (mkIsect t_min true V3.zero obj).merge (mkIsect t_max false V3.zero obj)

/-- AABB::operator||, the union of two boxes (src/object.cpp,
lines 212 to 229). -/
def Box.union (a b : Box) : Box :=
  ⟨⟨min a.xMinMax.1 b.xMinMax.1, min a.yMinMax.1 b.yMinMax.1,
      min a.zMinMax.1 b.zMinMax.1⟩,
    ⟨max a.xMinMax.2 b.xMinMax.2, max a.yMinMax.2 b.yMinMax.2,
      max a.zMinMax.2 b.zMinMax.2⟩⟩

/-- Sphere::BoundingBox (src/object.cpp, lines 44 to 47):
AABB{center + offset, center − offset} with offset = (r, r, r). -/
def sphereBox (s : Sphere) : Box :=
  ⟨s.center + ⟨s.radius, s.radius, s.radius⟩,
    s.center - ⟨s.radius, s.radius, s.radius⟩⟩

/-- C7: for a ray tangent to a sphere (discriminant Δ = 0, witnessed by the
hypothesis on b = d · (o − c)) whose tangent point lies ahead of the origin
(0 < −b), Sphere::Intersect returns a single present intersection at
t = −b that is front-facing (out = true, the fields of the candidate built
with out = true, which the tie in the nearest-merge selects). -/
theorem c7_sphere_tangent (sqrt : ℚ → ℚ) (s : Sphere) (i : ℕ) (r : Ray)
    (b : ℚ) (hbdef : b = r.dir.dot (r.origin - s.center))
    (hsqrt : sqrt 0 = 0)
    (hdelta : 4 * (b * b - (s.center - r.origin).normSq
      + s.radius * s.radius) = 0)
    (hpos : 0 < -b) :
    sphereIntersect sqrt s i r = ⟨true, -b, true, V3.zero, i⟩ := by
  unfold sphereIntersect
  rw [← hbdef]
  dsimp only
  rw [hdelta, hsqrt]
  rw [if_neg (lt_irrefl 0)]
  have e1 : (-2 * b + 0) / 2 = -b := by ring
  have e2 : (-2 * b - 0) / 2 = -b := by ring
  rw [e1, e2]
  have hm : max (-b) 0 = -b := max_eq_left hpos.le
  simp only [Isect.merge, mkIsect, Isect.isEmpty, hm, decide_eq_true hpos,
    Bool.not_true, Bool.false_eq_true, if_false, lt_irrefl, ite_false]

/-- C7, witness: the tangency theorem at the unit-direction ray from the
origin along (1, 0, 0) and the sphere of radius 1 centered at (3, 1, 0);
there b = −3, Δ = 0, and the intersection is at t = 3, front-facing. -/
theorem c7_sphere_tangent_witness :
    sphereIntersect (fun _ => 0) ⟨1, ⟨3, 1, 0⟩⟩ 4 ⟨V3.zero, ⟨1, 0, 0⟩⟩
      = ⟨true, 3, true, V3.zero, 4⟩ := by
  have h := c7_sphere_tangent (fun _ => 0) ⟨1, ⟨3, 1, 0⟩⟩ 4
    ⟨V3.zero, ⟨1, 0, 0⟩⟩ (-3)
    (by simp only [V3.dot, V3.sub_def, V3.zero]; norm_num)
    rfl
    (by simp only [V3.normSq, V3.sub_def, V3.zero]; norm_num)
    (by norm_num)
  norm_num at h
  exact h

/-- Model of the polymorphic Object wrapper (src/object.hpp, lines 378 to
444): an identifier together with the
intersection behaviour of the wrapped RawObject.  Only Intersect matters to
the container claims; concrete objects are built from the geometric
primitives above. -/
structure Obj where
  id : ℕ
  hit : Ray → Isect

/-- An Object wrapping a Sphere (src/object.hpp, lines 390 to 393). -/
def sphereObj (sqrt : ℚ → ℚ) (i : ℕ) (s : Sphere) : Obj :=
  ⟨i, sphereIntersect sqrt s i⟩

/-- The intersection computed by ObjectVector::Intersect
(src/object_container.cpp, lines 11 to 31): the nearest-merge of the
objects' intersections, folded over the vector starting from the
default-empty record.  (The C++ function also returns a reference to the
winning object; the claims concern the Intersection component.) -/
def naiveIntersect (objects : List Obj) (r : Ray) : Isect :=
  objects.foldl (fun acc o => acc.merge (o.hit r)) (emptyIsect 0)

/-- The BVH tree shape (src/object_container.hpp, lines 62 to 69): a leaf
holds an object and a bounding box; an internal node holds two children
and a bounding box. -/
inductive BVHTree where
  | leaf (o : Obj) (bb : Box)
  | node (c1 c2 : BVHTree) (bb : Box)

/-- The bounding box stored at the root of a BVH node. -/
def BVHTree.bb : BVHTree → Box
  | .leaf _ b => b
  | .node _ _ b => b

/-- Number of leaves of a BVH tree. -/
def BVHTree.countLeaves : BVHTree → ℕ
  | .leaf _ _ => 1
  | .node c1 c2 _ => c1.countLeaves + c2.countLeaves

/-- BVH::Intersect (src/object_container.cpp, lines 59 to 83): a leaf first
tests its bounding box, then delegates to its object; an internal node
tests its bounding box, fully intersects child1, compares (with
Intersection::operator<) against the intersection with child2's bounding
box, and only descends into child2 when child1's hit is not strictly
nearer. -/
def bvhIntersect : BVHTree → Ray → Isect
  | .leaf o bb, r =>
      if (boxIntersect bb 0 r).isEmpty then emptyIsect 0 else o.hit r
  | .node c1 c2 bb, r =>
      if (boxIntersect bb 0 r).isEmpty then emptyIsect 0
      else
        let inter_child1 := bvhIntersect c1 r
        let inter_aabb_child2 := boxIntersect c2.bb 0 r
        if inter_child1.lt inter_aabb_child2 then inter_child1
        else
          let inter_child2 := bvhIntersect c2 r
          if inter_child1.lt inter_child2 then inter_child1 else inter_child2

/-- BVH::CompareCentroids (src/object_container.cpp, lines 34 to 51):
strict comparison of the given coordinate of the bounding-box centroids;
false for an invalid coordinate. -/
def compareCentroids (axis : ℕ) (o1 o2 : Obj × Box) : Bool :=
  match axis with
  | 0 => decide (o1.2.centroid.x < o2.2.centroid.x)
  | 1 => decide (o1.2.centroid.y < o2.2.centroid.y)
  | 2 => decide (o1.2.centroid.z < o2.2.centroid.z)
  | _ => false

/-- BVH::Build (src/object_container.cpp, lines 86 to 107), modelled on
lists with explicit fuel because the C++ recursion does not terminate on
every input.  A one-element range becomes a leaf.  Otherwise the code
calls std::nth_element with the midpoint half = first + (last−first)/2 —
modelled by the oracle function reorder standing for the resulting
permutation — and recurses on [first, half) (the first length/2 elements)
and on [half+1, last) (the elements after position length/2), dropping the
element at the midpoint.  The C++ random axis only influences the
comparator given to nth_element, hence is absorbed into the reorder
oracle.  buildFuel returns none exactly when no execution with the given
oracle terminates within the given recursion depth. -/
def buildFuel (reorder : List (Obj × Box) → List (Obj × Box)) :
    ℕ → List (Obj × Box) → Option BVHTree
  | 0, _ => none
  | fuel + 1, l =>
    match l with
    | [p] => some (.leaf p.1 p.2)
    | _ =>
      match buildFuel reorder fuel ((reorder l).take (l.length / 2)),
          buildFuel reorder fuel ((reorder l).drop (l.length / 2 + 1)) with
      | some t1, some t2 => some (.node t1 t2 (t1.bb.union t2.bb))
      | _, _ => none

/-- The postcondition of std::nth_element in the case where it leaves the
range unchanged: no element before position k is strictly greater than the
element at k, and no element after position k is strictly smaller, under
the given comparator.  When this holds, the identity permutation is a
legitimate nth_element outcome. -/
def nthFixed (cmp : (Obj × Box) → (Obj × Box) → Bool)
    (l : List (Obj × Box)) (k : ℕ) : Prop :=
  ∀ i j : Fin l.length,
    (j.val = k → i.val < k → cmp (l.get j) (l.get i) = false) ∧
    (j.val = k → k < i.val → cmp (l.get i) (l.get j) = false)

/-- Observational agreement of two intersection results: both empty, or
literally the same record. -/
def sameHit (a b : Isect) : Prop :=
  (a.isEmpty = true ∧ b.isEmpty = true) ∨ a = b

/-- Building from the empty range never terminates: the C++ code would call
nth_element on it and recurse on the empty first half forever, so the
fuel-indexed model returns none for every fuel. -/
theorem buildFuel_nil (reorder : List (Obj × Box) → List (Obj × Box)) :
    ∀ fuel, buildFuel reorder fuel [] = none := by
  intro fuel
  induction fuel with
  | zero => rfl
  | succ n ih =>
    simp only [buildFuel, List.length_nil, Nat.zero_div, List.take_zero, ih]

/-- C3: the claim asserts that BVH::Build terminates on every non-empty
range and never reaches an empty range.  In fact, for every two-element
input and every nth_element outcome, the recursion hands the empty range
[half+1, last) to the second child, which then recurses on the empty range
forever: no fuel suffices, i.e. no execution terminates. -/
theorem c3_build_two_diverges (p q : Obj × Box)
    (reorder : List (Obj × Box) → List (Obj × Box))
    (hlen : (reorder [p, q]).length = 2) :
    ∀ fuel, buildFuel reorder fuel [p, q] = none := by
  intro fuel
  cases fuel with
  | zero => rfl
  | succ n =>
    have hdrop : (reorder [p, q]).drop 2 = [] :=
      List.drop_eq_nil_of_le (le_of_eq hlen)
    simp only [buildFuel, List.length_cons, List.length_nil]
    norm_num
    rw [hdrop, buildFuel_nil]
    cases buildFuel reorder n ((reorder [p, q]).take 1) <;> rfl

/-- C3, witness: with two concrete objects and the identity permutation
(a valid nth_element outcome here), the build returns none at fuel 10. -/
theorem c3_build_two_diverges_witness :
    buildFuel id 10 [(⟨0, fun _ => emptyIsect 0⟩, ⟨V3.zero, V3.zero⟩),
      (⟨1, fun _ => emptyIsect 1⟩, ⟨V3.zero, V3.zero⟩)] = none :=
  c3_build_two_diverges _ _ id rfl 10

/-- C2: the claim asserts that building from n objects yields a tree with
exactly n leaves.  In fact, for every three-element input and every
nth_element outcome, the build terminates but produces a tree with two
leaves: the median element at position 1 of the permuted range is dropped
(the recursion covers positions [0,1) and [2,3)). -/
theorem c2_build_three_has_two_leaves (p q s : Obj × Box)
    (reorder : List (Obj × Box) → List (Obj × Box))
    (hlen : (reorder [p, q, s]).length = 3) (fuel : ℕ) :
    ∃ tr, buildFuel reorder (fuel + 2) [p, q, s] = some tr ∧
      tr.countLeaves = 2 := by
  obtain ⟨a, b, c, habc⟩ := List.length_eq_three.mp hlen
  refine ⟨.node (.leaf a.1 a.2) (.leaf c.1 c.2)
    ((Box.union a.2 c.2)), ?_, rfl⟩
  have h1 : (reorder [p, q, s]).take 1 = [a] := by rw [habc]; rfl
  have h2 : (reorder [p, q, s]).drop 2 = [c] := by rw [habc]; rfl
  simp only [buildFuel, List.length_cons, List.length_nil]
  norm_num
  rw [h1, h2]
  cases fuel with
  | zero => rfl
  | succ m => rfl

/-- C2, witness: three concrete objects, identity permutation, fuel 2. -/
theorem c2_build_three_has_two_leaves_witness :
    ∃ tr, buildFuel id (0 + 2) [(⟨0, fun _ => emptyIsect 0⟩, ⟨V3.zero, V3.zero⟩),
      (⟨1, fun _ => emptyIsect 1⟩, ⟨V3.zero, V3.zero⟩),
      (⟨2, fun _ => emptyIsect 2⟩, ⟨V3.zero, V3.zero⟩)] = some tr ∧
      tr.countLeaves = 2 :=
  c2_build_three_has_two_leaves _ _ _ id rfl 0

/-- Square-root oracle for the concrete BVH counterexample scene.  In that
scene the modelled code evaluates sqrt only at the discriminant 4 (the
other two discriminants are negative, taking the early-empty branch), and
this oracle returns the true square root 2 there. -/
def cexSqrt : ℚ → ℚ := fun q => if q = 4 then 2 else 0

/-- Counterexample sphere A: radius 1/4, center (1, 1, 1). -/
def sphA : Sphere := ⟨1 / 4, ⟨1, 1, 1⟩⟩

/-- Counterexample sphere B: radius 1, center (2, 4, 4), which lies on the
counterexample ray. -/
def sphB : Sphere := ⟨1, ⟨2, 4, 4⟩⟩

/-- Counterexample sphere C: radius 1/4, center (9, 9, 9). -/
def sphC : Sphere := ⟨1 / 4, ⟨9, 9, 9⟩⟩

def objA : Obj := sphereObj cexSqrt 0 sphA

def objB : Obj := sphereObj cexSqrt 1 sphB

def objC : Obj := sphereObj cexSqrt 2 sphC

/-- The (object, bounding box) input the BVH constructor hands to Build
(src/object_container.hpp, lines 86 to 107) for the list [A, B, C].  The
box centroids (1,1,1), (2,4,4), (9,9,9) are strictly increasing on every
axis, so the list is already sorted under every comparator the build can
draw, and the identity permutation is a valid nth_element outcome for
every axis choice. -/
def cexPairs : List (Obj × Box) :=
  [(objA, sphereBox sphA), (objB, sphereBox sphB), (objC, sphereBox sphC)]

/-- The unit ray from the origin towards (1/3, 2/3, 2/3): it passes through
the center of sphere B and misses spheres A and C.  All direction
components are nonzero, so the slab test of the model agrees with the
double code. -/
def cexRay : Ray := ⟨V3.zero, ⟨1 / 3, 2 / 3, 2 / 3⟩⟩

/-- The tree Build produces from cexPairs under the identity permutation:
leaves A and C; the median element B is dropped. -/
def cexTree : BVHTree :=
  .node (.leaf objA (sphereBox sphA)) (.leaf objC (sphereBox sphC))
    ((sphereBox sphA).union (sphereBox sphC))

theorem cex_hitA : objA.hit cexRay = emptyIsect 0 := by
  simp only [objA, sphereObj, sphereIntersect, cexRay, sphA, V3.dot, V3.normSq,
    V3.sub_def, V3.zero]
  norm_num

theorem cex_hitB : objB.hit cexRay = mkIsect 5 true V3.zero 1 := by
  simp only [objB, sphereObj, sphereIntersect, cexRay, sphB, cexSqrt, V3.dot,
    V3.normSq, V3.sub_def, V3.zero]
  norm_num
  simp only [Isect.merge, mkIsect, Isect.isEmpty]
  norm_num

theorem cex_hitC : objC.hit cexRay = emptyIsect 2 := by
  simp only [objC, sphereObj, sphereIntersect, cexRay, sphC, V3.dot, V3.normSq,
    V3.sub_def, V3.zero]
  norm_num

theorem cex_boxA : (boxIntersect (sphereBox sphA) 0 cexRay).isEmpty = true := by
  simp only [boxIntersect, sphereBox, sphA, cexRay, V3.add_def, V3.sub_def,
    V3.zero]
  norm_num [emptyIsect, Isect.isEmpty]

theorem cex_boxC : (boxIntersect (sphereBox sphC) 0 cexRay).isEmpty = true := by
  simp only [boxIntersect, sphereBox, sphC, cexRay, V3.add_def, V3.sub_def,
    V3.zero]
  norm_num [emptyIsect, Isect.isEmpty]

theorem cex_boxRoot :
    (boxIntersect ((sphereBox sphA).union (sphereBox sphC)) 0 cexRay).isEmpty
      = false := by
  simp only [boxIntersect, Box.union, Box.xMinMax, Box.yMinMax, Box.zMinMax,
    sphereBox, sphA, sphC, cexRay, V3.add_def, V3.sub_def, V3.zero]
  norm_num
  simp only [Isect.merge, mkIsect, Isect.isEmpty]
  norm_num

theorem cex_bvh : bvhIntersect cexTree cexRay = emptyIsect 0 := by
  simp only [cexTree, bvhIntersect, BVHTree.bb, cex_boxRoot, cex_boxA,
    cex_boxC]
  simp only [Isect.lt, Isect.isEmpty, emptyIsect, Bool.not_false, if_true,
    Bool.false_eq_true, if_false]

theorem cex_naive :
    naiveIntersect [objA, objB, objC] cexRay = mkIsect 5 true V3.zero 1 := by
  simp only [naiveIntersect, List.foldl_cons, List.foldl_nil, cex_hitA,
    cex_hitB, cex_hitC]
  simp only [Isect.merge, mkIsect, emptyIsect, Isect.isEmpty]
  norm_num

/-- C1, counterexample.  The claim asserts that for every object list and
ray the BVH built from the list returns the same nearest intersection as
the naive fold over the whole list.  For the concrete sorted three-sphere
list cexPairs (for which the identity permutation is a valid nth_element
outcome on every axis, witnessed by the nthFixed conjuncts) the build
drops the median sphere B, and on the ray through B the built tree reports
no intersection while the naive traversal reports the hit at t = 5 on B. -/
theorem c1_bvh_equivalence_claim_false :
    (nthFixed (compareCentroids 0) cexPairs 1 ∧
      nthFixed (compareCentroids 1) cexPairs 1 ∧
      nthFixed (compareCentroids 2) cexPairs 1) ∧
    buildFuel id 5 cexPairs = some cexTree ∧
    bvhIntersect cexTree cexRay = emptyIsect 0 ∧
    naiveIntersect [objA, objB, objC] cexRay = mkIsect 5 true V3.zero 1 ∧
    ¬ sameHit (bvhIntersect cexTree cexRay)
        (naiveIntersect [objA, objB, objC] cexRay) := by
  refine ⟨⟨?_, ?_, ?_⟩, rfl, cex_bvh, cex_naive, ?_⟩
  · intro i j
    fin_cases i <;> fin_cases j <;>
      constructor <;>
        (intro h1 h2 <;>
          simp_all [cexPairs, compareCentroids, Box.centroid, sphereBox,
            sphA, sphB, sphC] <;> norm_num)
  · intro i j
    fin_cases i <;> fin_cases j <;>
      constructor <;>
        (intro h1 h2 <;>
          simp_all [cexPairs, compareCentroids, Box.centroid, sphereBox,
            sphA, sphB, sphC] <;> norm_num)
  · intro i j
    fin_cases i <;> fin_cases j <;>
      constructor <;>
        (intro h1 h2 <;>
          simp_all [cexPairs, compareCentroids, Box.centroid, sphereBox,
            sphA, sphB, sphC] <;> norm_num)
  · rw [cex_bvh, cex_naive]
    simp only [sameHit, emptyIsect, mkIsect, Isect.isEmpty, Isect.mk.injEq]
    norm_num

/-- The constant PI (src/utils.hpp, line 15), the literal
3.14159265358979323846 used by the C++ code (itself a rational value). -/
def cppPI : ℚ := 3.14159265358979323846

/-- Model of class Material (src/material.hpp, lines 14 to 116). -/
structure Material where
  color_diffuse : V3
  color_specular : V3
  color_transparent : V3
  opacity : ℚ
  fraction_diffuse_brdf : ℚ
  specular_coefficient : ℚ
  fraction_specular : ℚ
  refractive : Bool
  index : ℚ

/-- Model of class Light (src/scene.hpp, lines 78 to 103): a source point
and an RGB intensity. -/
structure Light where
  source : V3
  intensity : V3

/-- The per-light loop body of Scene::LightIntensity (src/scene.cpp,
lines 33 to 65): casts a shadow ray towards the light (contHit models the
container query objects_->Intersect), and if the light is visible adds the
diffuse term scaled by opacity·(1 − fraction_diffuse_brdf) and, when
FractionSpecular ≠ 0, the Phong specular term (rpow models std::pow). -/
def lightOne (sqrt : ℚ → ℚ) (rpow : ℚ → ℚ → ℚ) (contHit : Ray → Isect)
    (p normal : V3) (r : Ray) (material : Material)
    (diffuse_color specular_color : V3) (opacity fraction_diffuse_brdf : ℚ)
    (final_color : V3) (l : Light) : V3 :=
  let direction_light := l.source - p
  let to_light := mkRay sqrt p direction_light
  let inter_light := contHit to_light
  let d := inter_light.t
  if inter_light.isEmpty = true ∨ d * d ≥ direction_light.normSq then
    let dd := direction_light.normSq
    let color_diff := V3.zero
      + ((((max (to_light.dir.dot normal) 0) * l.intensity) * opacity)
          * (1 - fraction_diffuse_brdf)) / (cppPI * dd) * diffuse_color
    let color_light :=
      if material.fraction_specular ≠ 0 then
        let dl_unit := normalizeV sqrt direction_light
        let dl_refl := normalizeV sqrt
          (dl_unit - (2 * (dl_unit.dot normal)) * normal)
        color_diff
          + ((material.fraction_specular
              * rpow (max (dl_refl.dot r.dir) 0)
                material.specular_coefficient)
            * l.intensity) * specular_color / (cppPI * dd)
      else color_diff
    final_color + color_light
  else final_color

/-- Scene::LightIntensity (src/scene.cpp, lines 18 to 68).  The early
return fires when opacity·(1 − fraction_diffuse_brdf) = 0 AND the specular
exponent SpecularCoefficient is 0 (note: the exponent, not the specular
weight FractionSpecular); otherwise the per-light contributions are folded
over the lights. -/
def lightIntensity (sqrt : ℚ → ℚ) (rpow : ℚ → ℚ → ℚ) (contHit : Ray → Isect)
    (lights : List Light) (p normal : V3) (r : Ray) (material : Material)
    (diffuse_color specular_color : V3)
    (opacity fraction_diffuse_brdf : ℚ) : V3 :=
  if opacity * (1 - fraction_diffuse_brdf) = 0
      ∧ material.specular_coefficient = 0 then
    V3.zero
  else
    lights.foldl (lightOne sqrt rpow contHit p normal r material
      diffuse_color specular_color opacity fraction_diffuse_brdf) V3.zero

/-- C8: when the material satisfies opacity·(1 − fraction_diffuse_brdf) = 0
and its specular weight FractionSpecular is 0, the direct-lighting
estimator returns the zero color for any set of lights: either the early
return fires, or every per-light contribution vanishes (the diffuse term
is scaled by opacity·(1 − fraction_diffuse_brdf) = 0 and the specular
branch is skipped). -/
theorem c8_light_intensity_zero (sqrt : ℚ → ℚ) (rpow : ℚ → ℚ → ℚ)
    (contHit : Ray → Isect) (lights : List Light) (p normal : V3) (r : Ray)
    (material : Material) (diffuse_color specular_color : V3)
    (opacity fraction_diffuse_brdf : ℚ)
    (ha : opacity * (1 - fraction_diffuse_brdf) = 0)
    (hks : material.fraction_specular = 0) :
    lightIntensity sqrt rpow contHit lights p normal r material diffuse_color
      specular_color opacity fraction_diffuse_brdf = V3.zero := by
  unfold lightIntensity
  split
  · rfl
  · have step : ∀ (acc : V3) (l : Light),
        lightOne sqrt rpow contHit p normal r material diffuse_color
          specular_color opacity fraction_diffuse_brdf acc l = acc := by
      intro acc l
      unfold lightOne
      dsimp only
      split
      · rw [if_neg (show ¬ material.fraction_specular ≠ 0 from by simp [hks])]
        have hzero : ∀ a e c : ℚ,
            a * opacity * (1 - fraction_diffuse_brdf) / e * c = 0 := by
          intro a e c
          rw [show a * opacity * (1 - fraction_diffuse_brdf)
              = a * (opacity * (1 - fraction_diffuse_brdf)) from by ring, ha,
            mul_zero, zero_div, zero_mul]
        ext <;>
          simp only [V3.zero, V3.add_def, V3.muls_def, V3.smul_def,
            V3.divs_def, V3.hprod_def, hzero, add_zero, zero_add]
      · rfl
    have fixed : ∀ (ls : List Light) (acc : V3),
        ls.foldl (lightOne sqrt rpow contHit p normal r material
          diffuse_color specular_color opacity fraction_diffuse_brdf) acc
          = acc := by
      intro ls
      induction ls with
      | nil => intro acc; rfl
      | cons l ls ih =>
        intro acc
        rw [List.foldl_cons, step acc l]
        exact ih acc
    exact fixed lights V3.zero

/-- C8, witness: a concrete scene state — one light, specular exponent 30
(so the early return does not fire), opacity 0, FractionSpecular 0 — where
the estimator evaluates through the per-light loop to the zero color. -/
theorem c8_light_intensity_zero_witness :
    lightIntensity (fun _ => 0) (fun _ _ => 0) (fun _ => emptyIsect 0)
      [⟨⟨2, -2, 2⟩, ⟨40, 40, 40⟩⟩] ⟨4, 0, 0⟩ ⟨1, 0, 0⟩ ⟨V3.zero, ⟨1, 0, 0⟩⟩
      ⟨⟨1, 1, 1⟩, ⟨1, 1, 1⟩, ⟨1, 1, 1⟩, 0, 1 / 2, 30, 0, true, 1⟩
      ⟨9 / 10, 1 / 10, 0⟩ ⟨1, 1, 1⟩ 0 (1 / 2) = V3.zero :=
  c8_light_intensity_zero (fun _ => 0) (fun _ _ => 0) (fun _ => emptyIsect 0)
    [⟨⟨2, -2, 2⟩, ⟨40, 40, 40⟩⟩] ⟨4, 0, 0⟩ ⟨1, 0, 0⟩ ⟨V3.zero, ⟨1, 0, 0⟩⟩
    ⟨⟨1, 1, 1⟩, ⟨1, 1, 1⟩, ⟨1, 1, 1⟩, 0, 1 / 2, 30, 0, true, 1⟩
    ⟨9 / 10, 1 / 10, 0⟩ ⟨1, 1, 1⟩ 0 (1 / 2) (by norm_num) rfl

/-- The C++ (int) cast applied to a double in src/scene.cpp, lines 319,
321, 323: truncation toward zero. -/
def cppToInt (q : ℚ) : ℤ := if 0 ≤ q then ⌊q⌋ else ⌈q⌉

/-- Narrowing of an int to the unsigned char stored in the image buffer
(src/scene.hpp, line 115): reduction mod 256. -/
def toUChar (v : ℤ) : ℤ := v % 256

/-- The gamma encoding of one color channel (src/scene.cpp, lines 318 to
323): std::min(255, (int)(255*pow(c, 1/gamma))), narrowed to the unsigned
char stored in image_.  rpow models std::pow. -/
def gammaEncode (rpow : ℚ → ℚ → ℚ) (gamma c : ℚ) : ℤ :=
  toUChar (min 255 (cppToInt (255 * rpow c (1 / gamma))))

/-- Channel selector: 0, 1, 2 pick the x, y, z color components (the R, G,
B planes of src/scene.cpp, lines 318 to 323). -/
def V3.chan (plane : ℕ) (v : V3) : ℚ :=
  match plane with
  | 0 => v.x
  | 1 => v.y
  | _ => v.z

/-- The three buffer writes performed for one pixel by Scene::Render
(src/scene.cpp, lines 318 to 323): channel p of pixel (i, j) goes to index
(Height−i−1)·Width + j + p·Width·Height. -/
def writePixel (rpow : ℚ → ℚ → ℚ) (hh ww : ℕ) (gamma : ℚ) (c : V3)
    (i j : ℕ) (img : List ℤ) : List ℤ :=
  ((img.set ((hh - i - 1) * ww + j) (gammaEncode rpow gamma c.x)).set
      ((hh - i - 1) * ww + j + ww * hh) (gammaEncode rpow gamma c.y)).set
    ((hh - i - 1) * ww + j + 2 * ww * hh) (gammaEncode rpow gamma c.z)

/-- The inner pixel loop of Scene::Render (src/scene.cpp, lines 294 to
324) over a list of column indices, for row i.  The per-pixel color is
abstracted by the function pix, standing for the GetColor accumulation of
lines 296 to 315. -/
def renderCols (rpow : ℚ → ℚ → ℚ) (hh ww : ℕ) (gamma : ℚ)
    (pix : ℕ → ℕ → V3) (i : ℕ) : List ℕ → List ℤ → List ℤ
  | [], img => img
  | j :: js, img => renderCols rpow hh ww gamma pix i js
      (writePixel rpow hh ww gamma (pix i j) i j img)

/-- The outer row loop of Scene::Render (src/scene.cpp, lines 293 to 334)
over a list of row indices. -/
def renderRows (rpow : ℚ → ℚ → ℚ) (hh ww : ℕ) (gamma : ℚ)
    (pix : ℕ → ℕ → V3) : List ℕ → List ℤ → List ℤ
  | [], img => img
  | i :: rows, img => renderRows rpow hh ww gamma pix rows
      (renderCols rpow hh ww gamma pix i (List.range ww) img)

/-- Scene::Render (src/scene.cpp, lines 289 to 336) acting on the image
buffer: the buffer starts as the 3·Height·Width zero bytes allocated by the
Scene constructor (src/scene.hpp, line 188) and every pixel of every row is
processed.  The OpenMP schedule only permutes independent per-pixel writes
to disjoint indices; the model processes rows in order. -/
def renderImage (rpow : ℚ → ℚ → ℚ) (hh ww : ℕ) (gamma : ℚ)
    (pix : ℕ → ℕ → V3) : List ℤ :=
  renderRows rpow hh ww gamma pix (List.range hh)
    (List.replicate (3 * hh * ww) 0)

theorem writePixel_length (rpow : ℚ → ℚ → ℚ) (hh ww : ℕ) (gamma : ℚ)
    (c : V3) (i j : ℕ) (img : List ℤ) :
    (writePixel rpow hh ww gamma c i j img).length = img.length := by
  simp [writePixel]

theorem renderCols_length (rpow : ℚ → ℚ → ℚ) (hh ww : ℕ) (gamma : ℚ)
    (pix : ℕ → ℕ → V3) (i : ℕ) :
    ∀ (js : List ℕ) (img : List ℤ),
      (renderCols rpow hh ww gamma pix i js img).length = img.length := by
  intro js
  induction js with
  | nil => intro img; rfl
  | cons j js ih =>
    intro img
    rw [renderCols, ih, writePixel_length]

theorem renderRows_length (rpow : ℚ → ℚ → ℚ) (hh ww : ℕ) (gamma : ℚ)
    (pix : ℕ → ℕ → V3) :
    ∀ (rows : List ℕ) (img : List ℤ),
      (renderRows rpow hh ww gamma pix rows img).length = img.length := by
  intro rows
  induction rows with
  | nil => intro img; rfl
  | cons i rows ih =>
    intro img
    rw [renderRows, ih, renderCols_length]

theorem nat_base_inj (K q q' s s' : ℕ) (hs : s < K) (hs' : s' < K)
    (h : q * K + s = q' * K + s') : q = q' ∧ s = s' := by
  have hK : 0 < K := lt_of_le_of_lt (Nat.zero_le s) hs
  have h1 : (q * K + s) / K = q := by
    rw [Nat.mul_comm q K, Nat.mul_add_div hK, Nat.div_eq_of_lt hs,
      Nat.add_zero]
  have h2 : (q' * K + s') / K = q' := by
    rw [Nat.mul_comm q' K, Nat.mul_add_div hK, Nat.div_eq_of_lt hs',
      Nat.add_zero]
  have hq : q = q' := by rw [← h1, h, h2]
  subst hq
  exact ⟨rfl, Nat.add_left_cancel h⟩

theorem rowcol_lt (hh ww r c : ℕ) (hr : r < hh) (hc : c < ww) :
    r * ww + c < hh * ww := by
  calc r * ww + c < r * ww + ww := by omega
    _ = (r + 1) * ww := by ring
    _ ≤ hh * ww := Nat.mul_le_mul_right ww hr

theorem offset_lt (K s p : ℕ) (hs : s < K) (hp : p < 3) :
    p * K + s < 3 * K := by
  calc p * K + s < p * K + K := by omega
    _ = (p + 1) * K := by ring
    _ ≤ 3 * K := Nat.mul_le_mul_right K hp

theorem pixIndex_lt (hh ww r c p : ℕ) (hr : r < hh) (hc : c < ww)
    (hp : p < 3) : p * (hh * ww) + r * ww + c < 3 * hh * ww := by
  have hb := offset_lt (hh * ww) (r * ww + c) p (rowcol_lt hh ww r c hr hc) hp
  calc p * (hh * ww) + r * ww + c = p * (hh * ww) + (r * ww + c) := by ring
    _ < 3 * (hh * ww) := hb
    _ = 3 * hh * ww := by ring

/-- Injectivity of the plane-row-column to buffer-index map, on in-range
triples. -/
theorem pixIndex_inj (hh ww p p' r r' c c' : ℕ) (hr : r < hh) (hr' : r' < hh)
    (hc : c < ww) (hc' : c' < ww)
    (h : p * (hh * ww) + r * ww + c = p' * (hh * ww) + r' * ww + c') :
    p = p' ∧ r = r' ∧ c = c' := by
  rw [Nat.add_assoc, Nat.add_assoc] at h
  obtain ⟨h1, h2⟩ := nat_base_inj (hh * ww) p p' _ _
    (rowcol_lt hh ww r c hr hc) (rowcol_lt hh ww r' c' hr' hc') h
  obtain ⟨h3, h4⟩ := nat_base_inj ww r r' c c' hc hc' h2
  exact ⟨h1, h3, h4⟩

theorem writePixel_getElem (rpow : ℚ → ℚ → ℚ) (hh ww : ℕ) (gamma : ℚ)
    (c : V3) (i' j' i j plane : ℕ) (img : List ℤ)
    (hlen : img.length = 3 * hh * ww)
    (hi : i < hh) (hj : j < ww) (hi' : i' < hh) (hj' : j' < ww)
    (hp : plane < 3) :
    (writePixel rpow hh ww gamma c i' j' img)[plane * (hh * ww)
        + (hh - 1 - i) * ww + j]?
      = if i' = i ∧ j' = j
        then some (gammaEncode rpow gamma (V3.chan plane c))
        else img[plane * (hh * ww) + (hh - 1 - i) * ww + j]? := by
  have hrow : hh - i' - 1 = hh - 1 - i' := by omega
  have e0 : (hh - i' - 1) * ww + j'
      = 0 * (hh * ww) + (hh - 1 - i') * ww + j' := by rw [hrow]; ring
  have e1 : (hh - i' - 1) * ww + j' + ww * hh
      = 1 * (hh * ww) + (hh - 1 - i') * ww + j' := by rw [hrow]; ring
  have e2 : (hh - i' - 1) * ww + j' + 2 * ww * hh
      = 2 * (hh * ww) + (hh - 1 - i') * ww + j' := by rw [hrow]; ring
  have hne : ∀ k : ℕ, k < 3 → ¬ (k = plane ∧ i' = i ∧ j' = j) →
      k * (hh * ww) + (hh - 1 - i') * ww + j'
        ≠ plane * (hh * ww) + (hh - 1 - i) * ww + j := by
    intro k hk hcon heq
    obtain ⟨a1, a2, a3⟩ := pixIndex_inj hh ww k plane _ _ _ _
      (by omega) (by omega) hj' hj heq
    exact hcon ⟨a1, by omega, a3⟩
  unfold writePixel
  rw [e2, e1, e0]
  by_cases hij : i' = i ∧ j' = j
  · obtain ⟨hi2, hj2⟩ := hij
    subst hi2
    subst hj2
    rw [if_pos ⟨rfl, rfl⟩]
    interval_cases plane
    · rw [List.getElem?_set_ne (hne 2 (by omega) (by omega)),
        List.getElem?_set_ne (hne 1 (by omega) (by omega)),
        List.getElem?_set_eq_of_lt]
      · rfl
      · rw [hlen]
        exact pixIndex_lt hh ww (hh - 1 - i') j' 0 (by omega) hj' (by omega)
    · rw [List.getElem?_set_ne (hne 2 (by omega) (by omega)),
        List.getElem?_set_eq_of_lt]
      · rfl
      · rw [List.length_set, hlen]
        exact pixIndex_lt hh ww (hh - 1 - i') j' 1 (by omega) hj' (by omega)
    · rw [List.getElem?_set_eq_of_lt]
      · rfl
      · rw [List.length_set, List.length_set, hlen]
        exact pixIndex_lt hh ww (hh - 1 - i') j' 2 (by omega) hj' (by omega)
  · rw [if_neg hij]
    rw [List.getElem?_set_ne (hne 2 (by omega) (by tauto)),
      List.getElem?_set_ne (hne 1 (by omega) (by tauto)),
      List.getElem?_set_ne (hne 0 (by omega) (by tauto))]

theorem renderCols_getElem (rpow : ℚ → ℚ → ℚ) (hh ww : ℕ) (gamma : ℚ)
    (pix : ℕ → ℕ → V3) (i' i j plane : ℕ)
    (hi : i < hh) (hj : j < ww) (hi' : i' < hh) (hp : plane < 3) :
    ∀ (js : List ℕ) (img : List ℤ), img.length = 3 * hh * ww →
      (∀ x ∈ js, x < ww) →
      (renderCols rpow hh ww gamma pix i' js img)[plane * (hh * ww)
          + (hh - 1 - i) * ww + j]?
        = if i' = i ∧ j ∈ js
          then some (gammaEncode rpow gamma (V3.chan plane (pix i' j)))
          else img[plane * (hh * ww) + (hh - 1 - i) * ww + j]? := by
  intro js
  induction js with
  | nil =>
    intro img hlen hjs
    simp only [renderCols, List.not_mem_nil, and_false, if_false]
  | cons j0 js ih =>
    intro img hlen hjs
    rw [renderCols]
    rw [ih (writePixel rpow hh ww gamma (pix i' j0) i' j0 img)
      (by rw [writePixel_length, hlen])
      (fun x hx => hjs x (List.mem_cons_of_mem j0 hx))]
    by_cases h1 : i' = i ∧ j ∈ js
    · rw [if_pos h1, if_pos ⟨h1.1, List.mem_cons_of_mem j0 h1.2⟩]
    · rw [if_neg h1]
      rw [writePixel_getElem rpow hh ww gamma (pix i' j0) i' j0 i j plane img
        hlen hi hj hi' (hjs j0 (List.mem_cons_self j0 js)) hp]
      by_cases h2 : i' = i ∧ j0 = j
      · have hmem : j ∈ j0 :: js := by
          rw [← h2.2]
          exact List.mem_cons_self j0 js
        rw [if_pos h2, if_pos ⟨h2.1, hmem⟩, h2.2]
      · rw [if_neg h2, if_neg]
        intro hcon
        rcases List.mem_cons.mp hcon.2 with h | h
        · exact h2 ⟨hcon.1, h.symm⟩
        · exact h1 ⟨hcon.1, h⟩

theorem renderRows_getElem (rpow : ℚ → ℚ → ℚ) (hh ww : ℕ) (gamma : ℚ)
    (pix : ℕ → ℕ → V3) (i j plane : ℕ)
    (hi : i < hh) (hj : j < ww) (hp : plane < 3) :
    ∀ (rows : List ℕ) (img : List ℤ), img.length = 3 * hh * ww →
      (∀ x ∈ rows, x < hh) →
      (renderRows rpow hh ww gamma pix rows img)[plane * (hh * ww)
          + (hh - 1 - i) * ww + j]?
        = if i ∈ rows
          then some (gammaEncode rpow gamma (V3.chan plane (pix i j)))
          else img[plane * (hh * ww) + (hh - 1 - i) * ww + j]? := by
  intro rows
  induction rows with
  | nil =>
    intro img hlen hrows
    simp only [renderRows, List.not_mem_nil, if_false]
  | cons i0 rows ih =>
    intro img hlen hrows
    rw [renderRows]
    rw [ih (renderCols rpow hh ww gamma pix i0 (List.range ww) img)
      (by rw [renderCols_length, hlen])
      (fun x hx => hrows x (List.mem_cons_of_mem i0 hx))]
    by_cases h1 : i ∈ rows
    · rw [if_pos h1, if_pos (List.mem_cons_of_mem i0 h1)]
    · rw [if_neg h1]
      rw [renderCols_getElem rpow hh ww gamma pix i0 i j plane hi hj
        (hrows i0 (List.mem_cons_self i0 rows)) hp (List.range ww) img hlen
        (fun x hx => List.mem_range.mp hx)]
      by_cases h2 : i0 = i
      · have hmem : i ∈ i0 :: rows := by
          rw [h2]
          exact List.mem_cons_self i rows
        rw [if_pos ⟨h2, List.mem_range.mpr hj⟩, if_pos hmem, h2]
      · rw [if_neg (by tauto), if_neg]
        intro hcon
        rcases List.mem_cons.mp hcon with h | h
        · exact h2 h.symm
        · exact h1 h

/-- C10: for every pixel (i, j) with i < H, j < W and every plane p < 3,
Scene::Render leaves a buffer of length 3·H·W whose entry at index
p·H·W + (H−1−i)·W + j is min(255, ⌊255·C^(1/γ)⌋) applied to channel p of
the computed color C of pixel (i, j) — assuming, as for genuine colors,
that the modelled pow returns non-negative values, under which the C++
int-cast is the floor and the unsigned-char narrowing is the identity.
No other value is written: every buffer index below 3·H·W is of this form
for exactly one (p, i, j) by pixIndex_inj. -/
theorem c10_render_gamma_writes (rpow : ℚ → ℚ → ℚ) (hh ww : ℕ) (gamma : ℚ)
    (pix : ℕ → ℕ → V3) (i j plane : ℕ) (hi : i < hh) (hj : j < ww)
    (hp : plane < 3) (hr : ∀ c e, 0 ≤ rpow c e) :
    (renderImage rpow hh ww gamma pix).length = 3 * hh * ww ∧
    (renderImage rpow hh ww gamma pix)[plane * (hh * ww)
        + (hh - 1 - i) * ww + j]?
      = some (min 255 ⌊255 * rpow (V3.chan plane (pix i j)) (1 / gamma)⌋) := by
  constructor
  · rw [renderImage, renderRows_length, List.length_replicate]
  · rw [renderImage, renderRows_getElem rpow hh ww gamma pix i j plane hi hj
      hp (List.range hh) (List.replicate (3 * hh * ww) 0)
      (List.length_replicate (3 * hh * ww) 0)
      (fun x hx => List.mem_range.mp hx),
      if_pos (List.mem_range.mpr hi)]
    have hx : (0 : ℚ) ≤ 255 * rpow (V3.chan plane (pix i j)) (1 / gamma) := by
      have := hr (V3.chan plane (pix i j)) (1 / gamma)
      positivity

    rw [gammaEncode, cppToInt, if_pos hx, toUChar]
    have hfl : (0 : ℤ) ≤ ⌊255 * rpow (V3.chan plane (pix i j)) (1 / gamma)⌋ :=
      Int.floor_nonneg.mpr hx
    rw [Int.emod_eq_of_lt (le_min (by norm_num) hfl)
      (lt_of_le_of_lt (min_le_left _ _) (by norm_num))]

/-- C10, witness: a 1×1 image with a constant pow model; the single red
byte is min(255, ⌊255·(1/2)⌋) = 127. -/
theorem c10_render_gamma_writes_witness :
    (renderImage (fun _ _ => 1 / 2) 1 1 (11 / 5) (fun _ _ => ⟨1, 0, 2⟩)).length
        = 3 * 1 * 1 ∧
    (renderImage (fun _ _ => 1 / 2) 1 1 (11 / 5)
        (fun _ _ => ⟨1, 0, 2⟩))[0 * (1 * 1) + (1 - 1 - 0) * 1 + 0]?
      = some (min 255 ⌊(255 : ℚ) * (1 / 2)⌋) :=
  c10_render_gamma_writes (fun _ _ => 1 / 2) 1 1 (11 / 5) (fun _ _ => ⟨1, 0, 2⟩)
    0 0 0 (by norm_num) (by norm_num) (by norm_num) (fun c e => by norm_num)

theorem merge_wf (a b : Isect) : (a.merge b).wf := by
  unfold Isect.merge
  split_ifs <;> exact mkIsect_wf _ _ _ _

theorem sphereIntersect_wf (sqrt : ℚ → ℚ) (s : Sphere) (i : ℕ) (r : Ray) :
    (sphereIntersect sqrt s i r).wf := by
  unfold sphereIntersect
  dsimp only
  split
  · exact emptyIsect_wf i
  · exact merge_wf _ _

/-- Folding a well-formed record into the default-empty record reproduces
it: the first branch of operator| rebuilds the other record through the
four-argument constructor. -/
theorem merge_empty_left (n : ℕ) (x : Isect) (hx : x.wf) :
    (emptyIsect n).merge x = x := by
  have h1 : (emptyIsect n).isEmpty = true := rfl
  unfold Isect.merge
  rw [if_pos h1]
  exact mkIsect_eta x hx

/-- Merging two empty well-formed records yields an empty record. -/
theorem merge_empty_empty (a b : Isect) (ha : a.isEmpty = true)
    (hb : b.isEmpty = true) (hbwf : b.wf) : (a.merge b).isEmpty = true := by
  unfold Isect.merge
  rw [if_pos ha]
  have hbex : b.ex = false := by
    simpa [Isect.isEmpty] using hb
  have hbt : ¬ 0 < b.t := by
    rw [hbwf.1] at hbex
    exact of_decide_eq_false hbex
  simp only [mkIsect, Isect.isEmpty]
  rw [decide_eq_false hbt]
  rfl

/-- The discriminant 4·(b² − ‖c − o‖² + r²) computed by Sphere::Intersect
(src/object.cpp, lines 12 to 15). -/
def sphereDelta (s : Sphere) (r : Ray) : ℚ :=
  4 * (r.dir.dot (r.origin - s.center) * r.dir.dot (r.origin - s.center)
    - (s.center - r.origin).normSq + s.radius * s.radius)

/-- If neither candidate root of the sphere quadratic is positive, the
merged record is empty; hence a present sphere intersection yields a
positive root t with (t + b)² = b² − ‖c − o‖² + r².  The hypothesis hsd
pins the square-root model at the one point where Sphere::Intersect
evaluates it (a global exact square root does not exist on ℚ). -/
theorem sphere_hit_root (sqrt : ℚ → ℚ) (s : Sphere) (i : ℕ) (r : Ray)
    (hsd : 0 ≤ sphereDelta s r →
      0 ≤ sqrt (sphereDelta s r) ∧
        sqrt (sphereDelta s r) * sqrt (sphereDelta s r) = sphereDelta s r)
    (hex : (sphereIntersect sqrt s i r).ex = true) :
    ∃ t : ℚ, 0 < t ∧
      (t + r.dir.dot (r.origin - s.center))
          * (t + r.dir.dot (r.origin - s.center))
        = (r.dir.dot (r.origin - s.center))
            * (r.dir.dot (r.origin - s.center))
          - (s.center - r.origin).normSq + s.radius * s.radius := by
  unfold sphereIntersect at hex
  unfold sphereDelta at hsd
  dsimp only at hex
  set b := r.dir.dot (r.origin - s.center) with hb
  set nn := (s.center - r.origin).normSq with hnn
  by_cases hdel : 4 * (b * b - nn + s.radius * s.radius) < 0
  · rw [if_pos hdel] at hex
    exact absurd hex (by simp [emptyIsect])
  · rw [if_neg hdel] at hex
    obtain ⟨hsd0, hsd⟩ := hsd (not_lt.mp hdel)
    set sd := sqrt (4 * (b * b - nn + s.radius * s.radius)) with hsddef
    have hmain : 0 < (-2 * b + sd) / 2 ∨ 0 < (-2 * b - sd) / 2 := by
      by_contra hcon
      push_neg at hcon
      obtain ⟨h1, h2⟩ := hcon
      have e1 : (mkIsect ((-2 * b + sd) / 2) false V3.zero i).isEmpty
          = true := by
        simp only [mkIsect, Isect.isEmpty]
        rw [decide_eq_false (not_lt.mpr h1)]
        rfl
      have e2 : (mkIsect ((-2 * b - sd) / 2) true V3.zero i).isEmpty
          = true := by
        simp only [mkIsect, Isect.isEmpty]
        rw [decide_eq_false (not_lt.mpr h2)]
        rfl
      have hres := merge_empty_empty _ _ e1 e2 (mkIsect_wf _ _ _ _)
      simp only [Isect.isEmpty, hex] at hres
      exact absurd hres (by simp)
    rcases hmain with h | h
    · refine ⟨(-2 * b + sd) / 2, h, ?_⟩
      have e : (-2 * b + sd) / 2 + b = sd / 2 := by ring
      rw [e]
      have : sd / 2 * (sd / 2) = sd * sd / 4 := by ring
      rw [this, hsd]
      ring
    · refine ⟨(-2 * b - sd) / 2, h, ?_⟩
      have e : (-2 * b - sd) / 2 + b = -(sd / 2) := by ring
      rw [e]
      have : -(sd / 2) * -(sd / 2) = sd * sd / 4 := by ring
      rw [this, hsd]
      ring

/-- One axis of the slab test: if the point o + t·d lies within the slab
[c − |rad|, c + |rad|] (expressed by the squared bound), then t lies
between the two slab parameters (corner − origin)·(1/d). -/
theorem slab_axis (o c d t rad : ℚ) (hd : d ≠ 0)
    (hhit : (o + t * d - c) * (o + t * d - c) ≤ rad * rad) :
    min ((c + rad - o) * (1 / d)) ((c - rad - o) * (1 / d)) ≤ t ∧
      t ≤ max ((c + rad - o) * (1 / d)) ((c - rad - o) * (1 / d)) := by
  set u1 := (c + rad - o) * (1 / d) with hu1
  set u2 := (c - rad - o) * (1 / d) with hu2
  have e1 : u1 * d = c + rad - o := by rw [hu1]; field_simp
  have e2 : u2 * d = c - rad - o := by rw [hu2]; field_simp
  constructor
  · by_contra hcon
    push_neg at hcon
    have h1 : t < u1 := lt_of_lt_of_le hcon (min_le_left _ _)
    have h2 : t < u2 := lt_of_lt_of_le hcon (min_le_right _ _)
    rcases lt_or_gt_of_ne hd with hneg | hpos
    · have g1 : u1 * d < t * d := mul_lt_mul_of_neg_right h1 hneg
      have g2 : u2 * d < t * d := mul_lt_mul_of_neg_right h2 hneg
      rw [e1] at g1
      rw [e2] at g2
      nlinarith [hhit, g1, g2]
    · have g1 : t * d < u1 * d := mul_lt_mul_of_pos_right h1 hpos
      have g2 : t * d < u2 * d := mul_lt_mul_of_pos_right h2 hpos
      rw [e1] at g1
      rw [e2] at g2
      nlinarith [hhit, g1, g2]
  · by_contra hcon
    push_neg at hcon
    have h1 : u1 < t := lt_of_le_of_lt (le_max_left _ _) hcon
    have h2 : u2 < t := lt_of_le_of_lt (le_max_right _ _) hcon
    rcases lt_or_gt_of_ne hd with hneg | hpos
    · have g1 : t * d < u1 * d := mul_lt_mul_of_neg_right h1 hneg
      have g2 : t * d < u2 * d := mul_lt_mul_of_neg_right h2 hneg
      rw [e1] at g1
      rw [e2] at g2
      nlinarith [hhit, g1, g2]
    · have g1 : u1 * d < t * d := mul_lt_mul_of_pos_right h1 hpos
      have g2 : u2 * d < t * d := mul_lt_mul_of_pos_right h2 hpos
      rw [e1] at g1
      rw [e2] at g2
      nlinarith [hhit, g1, g2]

/-- The merge of the two slab candidates is present whenever the exit
parameter is positive. -/
theorem merge_slab_ex (tmin tmax : ℚ) (htmax : 0 < tmax) :
    ((mkIsect tmin true V3.zero 0).merge
      (mkIsect tmax false V3.zero 0)).isEmpty = false := by
  by_cases h1 : (0 : ℚ) < tmin
  · by_cases h2 : max tmin 0 < max tmax 0
    · simp [Isect.merge, mkIsect, Isect.isEmpty, h1, htmax, h2, lt_max_iff]
    · simp [Isect.merge, mkIsect, Isect.isEmpty, h1, htmax, h2, lt_max_iff]
  · simp [Isect.merge, mkIsect, Isect.isEmpty, h1, htmax, lt_max_iff]

/-- A present sphere intersection implies the slab test against the
sphere's bounding box succeeds: the hit point lies on the sphere surface,
hence inside the box, so the ray parameter lies between every slab's enter
and exit parameters and the exit parameter is positive. -/
theorem sphere_hit_box (sqrt : ℚ → ℚ) (s : Sphere) (i : ℕ) (r : Ray)
    (hsd : 0 ≤ sphereDelta s r →
      0 ≤ sqrt (sphereDelta s r) ∧
        sqrt (sphereDelta s r) * sqrt (sphereDelta s r) = sphereDelta s r)
    (hunit : r.dir.normSq = 1)
    (hx : r.dir.x ≠ 0) (hy : r.dir.y ≠ 0) (hz : r.dir.z ≠ 0)
    (hex : (sphereIntersect sqrt s i r).ex = true) :
    (boxIntersect (sphereBox s) 0 r).isEmpty = false := by
  obtain ⟨t, ht0, htsq⟩ := sphere_hit_root sqrt s i r hsd hex
  obtain ⟨⟨ox, oy, oz⟩, ⟨dx, dy, dz⟩⟩ := r
  obtain ⟨rad, cx, cy, cz⟩ := s
  simp only [V3.dot, V3.sub_def, V3.normSq] at htsq hunit
  simp only at hx hy hz
  have key : (ox + t * dx - cx) * (ox + t * dx - cx)
      + (oy + t * dy - cy) * (oy + t * dy - cy)
      + (oz + t * dz - cz) * (oz + t * dz - cz) = rad * rad := by
    linear_combination htsq + t * t * hunit
  have hhx : (ox + t * dx - cx) * (ox + t * dx - cx) ≤ rad * rad := by
    nlinarith [mul_self_nonneg (oy + t * dy - cy),
      mul_self_nonneg (oz + t * dz - cz)]
  have hhy : (oy + t * dy - cy) * (oy + t * dy - cy) ≤ rad * rad := by
    nlinarith [mul_self_nonneg (ox + t * dx - cx),
      mul_self_nonneg (oz + t * dz - cz)]
  have hhz : (oz + t * dz - cz) * (oz + t * dz - cz) ≤ rad * rad := by
    nlinarith [mul_self_nonneg (ox + t * dx - cx),
      mul_self_nonneg (oy + t * dy - cy)]
  obtain ⟨sx1, sx2⟩ := slab_axis ox cx dx t rad hx hhx
  obtain ⟨sy1, sy2⟩ := slab_axis oy cy dy t rad hy hhy
  obtain ⟨sz1, sz2⟩ := slab_axis oz cz dz t rad hz hhz
  unfold boxIntersect sphereBox
  simp only [V3.add_def, V3.sub_def]
  rw [if_neg (not_lt.mpr (le_trans (max_le (max_le sx1 sy1) sz1)
    (le_min (le_min sx2 sy2) sz2)))]
  exact merge_slab_ex _ _
    (lt_of_lt_of_le ht0 (le_min (le_min sx2 sy2) sz2))

/-- C1, amended.  The full equivalence between the BVH and the naive list
traversal fails (the build drops the median element of every split and
never terminates on an empty split); the equivalence does hold for
singleton lists: for a one-sphere list and any ray with unit direction
whose components are all nonzero, the BVH leaf intersection and the naive
fold agree — the same hit record, or both empty. -/
theorem c1_bvh_singleton_equivalence (sqrt : ℚ → ℚ) (s : Sphere) (i : ℕ)
    (r : Ray)
    (hsd : 0 ≤ sphereDelta s r →
      0 ≤ sqrt (sphereDelta s r) ∧
        sqrt (sphereDelta s r) * sqrt (sphereDelta s r) = sphereDelta s r)
    (hunit : r.dir.normSq = 1)
    (hx : r.dir.x ≠ 0) (hy : r.dir.y ≠ 0) (hz : r.dir.z ≠ 0) :
    sameHit (bvhIntersect (.leaf (sphereObj sqrt i s) (sphereBox s)) r)
      (naiveIntersect [sphereObj sqrt i s] r) := by
  have hwf := sphereIntersect_wf sqrt s i r
  have hnaive : naiveIntersect [sphereObj sqrt i s] r
      = sphereIntersect sqrt s i r := by
    unfold naiveIntersect
    rw [List.foldl_cons, List.foldl_nil]
    exact merge_empty_left 0 _ hwf
  by_cases hex : (sphereIntersect sqrt s i r).ex = true
  · right
    simp only [bvhIntersect,
      sphere_hit_box sqrt s i r hsd hunit hx hy hz hex, Bool.false_eq_true,
      if_false, hnaive]
    rfl
  · have hexf : (sphereIntersect sqrt s i r).ex = false :=
      Bool.not_eq_true _ ▸ Bool.of_not_eq_true hex
    left
    constructor
    · simp only [bvhIntersect]
      split
      · rfl
      · show (sphereIntersect sqrt s i r).isEmpty = true
        simp [Isect.isEmpty, hexf]
    · rw [hnaive]
      simp [Isect.isEmpty, hexf]

/-- C1, witness for the amended equivalence: the singleton list holding
the concrete sphere B, intersected by the concrete unit ray through its
center (all direction components nonzero; the square-root oracle is exact
at the evaluated discriminant 4). -/
theorem c1_bvh_singleton_equivalence_witness :
    sameHit
      (bvhIntersect (.leaf (sphereObj cexSqrt 1 sphB) (sphereBox sphB))
        cexRay)
      (naiveIntersect [sphereObj cexSqrt 1 sphB] cexRay) :=
  c1_bvh_singleton_equivalence cexSqrt sphB 1 cexRay
    (by
      intro h
      have he : sphereDelta sphB cexRay = 4 := by
        simp only [sphereDelta, sphB, cexRay, V3.dot, V3.sub_def, V3.normSq,
          V3.zero]
        norm_num
      rw [he]
      norm_num [cexSqrt])
    (by simp only [cexRay, V3.normSq]; norm_num)
    (by simp only [cexRay]; norm_num)
    (by simp only [cexRay]; norm_num)
    (by simp only [cexRay]; norm_num)

end PT
